import Mathlib

/-!
Shallow embedding of `gdb-ghcrts.py`, a GDB plugin that introspects the GHC
runtime system: thread enumeration (`all_tsos`, `running_tsos`), stack frame
sizing (`Closure.frame_size`), the z-encoding symbol decoder (`zdecode`),
the tiered function-name resolver (`Closure.funcname`) and the two command
surfaces (`info tsos`, `info tsoprofile`).

Text is modelled as `List Char` (Python `str`).  The host debugger (gdb) is
modelled as an explicit environment of read-only oracles; a Python call that
may raise inside a `try`/`except` block that maps the failure to `None` is
modelled as an `Option`-valued oracle.
-/

namespace GhcRts

/-! ### Python string primitives -/

/-- Model of Python `s.find(c)` for a single-character needle: the index of
the first occurrence of `c` in `s`, or `-1` when absent. -/
def strFind : List Char → Char → Int
  | [], _ => -1
  | a :: rest, c =>
    if a = c then 0
    else
      let r := strFind rest c
      if r < 0 then -1 else r + 1

/-- Model of Python `needle in hay` (substring containment). -/
def containsSub : List Char → List Char → Bool
  | hay, needle =>
    needle.isPrefixOf hay ||
      match hay with
      | [] => false
      | _ :: t => containsSub t needle

/-- Model of Python `s.partition(c)`: `(before, sep, after)` split at the
first occurrence of `c`; `(s, "", "")` when `c` is absent. -/
def strPartition : List Char → Char → List Char × List Char × List Char
  | [], _ => ([], [], [])
  | a :: rest, c =>
    if a = c then ([], [c], rest)
    else
      let (x, y, z) := strPartition rest c
      (a :: x, y, z)

/-- Model of Python `s.rstrip(chars)`. -/
def rstrip (s chars : List Char) : List Char :=
  (s.reverse.dropWhile (fun c => chars.contains c)).reverse

/-- Python truthiness of an optional string: `None` and `""` are falsy. -/
def truthy : Option (List Char) → Bool
  | none => false
  | some s => !s.isEmpty

/-! ### Symbol decoder (`zdecode` / `ztrans`) -/

/-- The `ztrans` lookup table of the plugin: two-character z-encoding tokens
and their decoded forms, exactly as in the source. -/
def ztrans : List (List Char × List Char) :=
  [ ("ZC".toList, "ZC".toList)
  , ("ZL".toList, "(".toList)
  , ("ZM".toList, "[".toList)
  , ("ZN".toList, "]".toList)
  , ("ZR".toList, ")".toList)
  , ("ZZ".toList, "Z".toList)
  , ("za".toList, "&".toList)
  , ("zb".toList, "|".toList)
  , ("zd".toList, "$".toList)
  , ("ze".toList, "=".toList)
  , ("zg".toList, ">".toList)
  , ("zh".toList, "#".toList)
  , ("zi".toList, ".".toList)
  , ("zl".toList, "<".toList)
  , ("zm".toList, "-".toList)
  , ("zn".toList, "!".toList)
  , ("zp".toList, "+".toList)
  , ("zq".toList, "'".toList)
  , ("zs".toList, "/".toList)
  , ("zt".toList, "*".toList)
  , ("zu".toList, "_".toList)
  , ("zz".toList, "z".toList) ]

/-- Model of Python `ztrans.get(tok, tok)`: translate a token through the
table, passing unrecognized tokens through unchanged. -/
def ztransGet (tok : List Char) : List Char :=
  (ztrans.lookup tok).getD tok

/-- One-loop body of `zdecode`, with an explicit fuel argument to make the
recursion structural.  Each loop iteration consumes at least one character,
so `fuel = s.length` at entry never runs out (`zdecodeF_congr` below shows
the value is independent of any sufficient fuel). -/
def zdecodeF : Nat → List Char → List Char
  | 0, s => s
  | fuel + 1, s =>
    if s = [] then []
    else
      let idxz := strFind s 'z'
      let idxZ := strFind s 'Z'
      if idxz < 0 ∧ idxZ < 0 then s
      else
        let idx : Nat :=
          (if idxz < 0 then idxZ else if idxZ < 0 then idxz else min idxz idxZ).toNat
        s.take idx ++ ztransGet ((s.drop idx).take 2) ++ zdecodeF fuel (s.drop (idx + 2))

/-- Model of the plugin's `zdecode`: scan for the nearest `z`/`Z` escape
lead, copy the preceding text verbatim, consume two characters as a token,
translate through `ztrans` (unknown tokens pass through), repeat. -/
def zdecode (s : List Char) : List Char :=
  zdecodeF s.length s

/-! ### Frame descriptor resolver (`Closure.frame_size`) -/

/-- Closure type tags from `rts/storage/ClosureTypes.h`, as in the source. -/
def RET_BCO : Nat := 29

def RET_SMALL : Nat := 30

def RET_BIG : Nat := 31

def RET_FUN : Nat := 32

def CATCH_FRAME : Nat := 34

def STOP_FRAME : Nat := 36

def ATOMICALLY_FRAME : Nat := 55

/-- Byte size of `StgRetFun` on a 64-bit target (info pointer, size word,
fun pointer), the value of `StgRetFun_p.target().sizeof`. -/
def sizeofStgRetFun : Nat := 24

/-- Byte size of a pointer on a 64-bit target, the value of
`StgRetFun_p.sizeof`. -/
def sizeofStgRetFunP : Nat := 8

/-- The relevant fields of the `StgRetInfoTable` record that
`Closure.frame_size` consults: the closure-type tag `i.type` and the
layout bitmap `i.layout.bitmap`. -/
structure RetInfoTable where
  type : Nat
  bitmap : Nat
deriving DecidableEq

/-- The two exception kinds a stack walk can raise in the plugin:
`NotImplementedError("barf")` from `frame_size`, and `gdb.MemoryError`
from a failed target memory read. -/
inductive WalkError where
  | notImplemented
  | memoryError
deriving DecidableEq

/-- Model of `Closure.frame_size`: dispatch on the closure-type tag of the
return info table.  `RET_FUN` frames add the variable `size` field read
from the frame object itself (passed here as `retFunSizeField`); `RET_BIG`
and `RET_BCO` raise `NotImplementedError`; every other tag falls into the
final `else` and gets the 64-bit small-bitmap formula. -/
def frame_size (ri : RetInfoTable) (retFunSizeField : Nat) : Except WalkError Nat :=
  if ri.type = RET_FUN then
    .ok (sizeofStgRetFun / sizeofStgRetFunP + retFunSizeField)
  else if ri.type = RET_BIG then .error .notImplemented
  else if ri.type = RET_BCO then .error .notImplemented
  else .ok (1 + (ri.bitmap &&& 0x3f))

/-! ### TSO status (`TSO.status` / `TSO.running`) -/

/-- `what_next` constant from `rts/Constants.h`. -/
def ThreadKilled : Nat := 3

/-- `what_next` constant from `rts/Constants.h`. -/
def ThreadComplete : Nat := 4

/-- `why_blocked` constant from `rts/Constants.h`. -/
def NotBlocked : Nat := 0

/-- The fields of a TSO record that the status predicates read. -/
structure StgTSO where
  what_next : Nat
  why_blocked : Nat
deriving DecidableEq

/-- Model of `TSO.running`: not killed, not completed, and with
`why_blocked == NotBlocked`. -/
def running (t : StgTSO) : Bool :=
  if t.what_next = ThreadKilled then false
  else if t.what_next = ThreadComplete then false
  else t.why_blocked == NotBlocked

/-! ### Thread registry enumerator (`all_tsos`, `running_tsos`) -/

/-- The scheduler state that `all_tsos` reads from the target: the
`run_queue_hd` pointer of each capability (in capability index order), the
`threads` head of each GC generation (in generation index order), the
`_link` and `global_link` successor fields of every TSO (addresses
modelled as `Nat`), and the address of `stg_END_TSO_QUEUE_closure`, the
sentinel that terminates every queue. -/
structure Sched where
  run_queue_hd : List Nat
  gen_threads : List Nat
  link : Nat → Nat
  global_link : Nat → Nat
  sentinel : Nat

/-- One queue traversal of `all_tsos`: follow `next` from `t` until the
sentinel address is reached, collecting the visited TSO addresses in
order.  The Python `while` loop has no iteration bound; the embedding
makes the unbounded loop explicit with fuel: `none` means the sentinel was
not reached within `fuel` steps. -/
def chain (next : Nat → Nat) (sent : Nat) : Nat → Nat → Option (List Nat)
  | _, 0 => none
  | t, fuel + 1 =>
    if t = sent then some []
    else (chain next sent (next t) fuel).map (t :: ·)

/-- The outer loop of `all_tsos` over a list of queue heads: traverse each
head's chain in order and concatenate the results; a chain that does not
terminate makes the whole enumeration diverge (`none`). -/
def queueList (next : Nat → Nat) (sent : Nat) : List Nat → Nat → Option (List Nat)
  | [], _ => some []
  | h :: hs, fuel =>
    match chain next sent h fuel with
    | none => none
    | some c => (queueList next sent hs fuel).map (c ++ ·)

/-- Model of `all_tsos`: yield every run queue (capability order, then link
order) followed by every generation thread list (generation order, then
link order).  The generator applies no deduplication and no iteration
bound. -/
def all_tsos (s : Sched) (fuel : Nat) : Option (List Nat) :=
  match queueList s.link s.sentinel s.run_queue_hd fuel,
        queueList s.global_link s.sentinel s.gen_threads fuel with
  | some a, some b => some (a ++ b)
  | _, _ => none

/-- The per-capability state `running_tsos` reads: each capability's
`cap.r.rCurrentTSO` pointer (`none` models a NULL pointer), plus the TSO
records themselves for status inspection. -/
structure Caps where
  rCurrentTSO : List (Option Nat)
  tso : Nat → StgTSO

/-- Loop body of `running_tsos`: yield each capability's current TSO
pointer, skipping NULL pointers.  No status field is consulted. -/
def running_tsos_list : List (Option Nat) → List Nat
  | [] => []
  | none :: rest => running_tsos_list rest
  | some p :: rest => p :: running_tsos_list rest

/-- Model of `running_tsos`: the non-NULL `rCurrentTSO` of every
capability, in capability order. -/
def running_tsos (w : Caps) : List Nat :=
  running_tsos_list w.rCurrentTSO

/-! ### Function name resolver (`Closure.funcname` and helpers) -/

/-- A gdb lexical block: its `function` symbol's name (`none` when the
block is anonymous) and its enclosing `superblock`. -/
inductive Block where
  | mk : Option (List Char) → Option Block → Block

/-- The `function` attribute of a block. -/
def Block.func : Block → Option (List Char)
  | .mk f _ => f

/-- The `superblock` attribute of a block. -/
def Block.superblock : Block → Option Block
  | .mk _ s => s

/-- One entry of a gdb line table: a source line and its mapped pc. -/
structure LineEntry where
  line : Nat
  pc : Nat

/-- A gdb symbol table, with the line table used by `guess_funcname`. -/
structure Symtab where
  filename : List Char
  linetable : List LineEntry

/-- The result of `gdb.find_pc_line`. -/
structure PcLine where
  symtab : Option Symtab
  line : Nat

/-- The host-debugger oracles the resolver consumes, read-only views of
one target state.  `block_for_pc` and `info_symbol` return `none` both
for a missing result and for a raised exception (the Python call sites
wrap them in `try`/`except` returning `None`). -/
structure GdbEnv where
  block_for_pc : Nat → Option Block
  info_symbol : Nat → Option (List Char)
  find_pc_line : Nat → PcLine

/-- Model of `pc_funcname`: run `info symbol` on the pc; when the output
mentions `_info`, return its first space-separated word, else `None`. -/
def pc_funcname (g : GdbEnv) (pc : Nat) : Option (List Char) :=
  match g.info_symbol pc with
  | none => none
  | some func =>
    if containsSub func "_info".toList then some (strPartition func ' ').1
    else none

/-- Model of `block_funcname`: the block's own function name, or `None`
for an anonymous block (the commented-out `pc_funcname` fallback of the
source is dead code). -/
def block_funcname (b : Block) : Option (List Char) :=
  b.func

/-- Accumulator step of `guess_funcname`'s line-table scan: keep the best
`(line, name)` so far, considering only entries at or before the target
line whose pc belongs to a block with a named function looking like an
ordinary compiled package identifier (contains `zm`, `zi` and `_`). -/
def guessStep (g : GdbEnv) (pcline : Nat) (acc : Nat × Option (List Char))
    (l : LineEntry) : Nat × Option (List Char) :=
  if pcline < l.line then acc
  else if acc.1 < l.line then
    match (g.block_for_pc l.pc).bind Block.func with
    | none => acc
    | some s =>
      if containsSub s "zm".toList ∧ containsSub s "zi".toList ∧
          containsSub s "_".toList then
        (l.line, some s)
      else acc
  else acc

/-- Model of `guess_funcname`: heuristic resolution through the line table
of the compilation unit containing `pc`. -/
def guess_funcname (g : GdbEnv) (pc : Nat) : Option (List Char) :=
  let sym := g.find_pc_line pc
  match sym.symtab with
  | none => none
  | some st => (st.linetable.foldl (guessStep g sym.line) (0, none)).2

/-- Model of `clean_funcname` on an actual string: decode the z-encoding,
then strip a trailing `_ret_info`, then a trailing `_info`. -/
def clean_funcname (f : List Char) : List Char :=
  let f := zdecode f
  let f := if "_ret_info".toList.isSuffixOf f then f.take (f.length - 9) else f
  let f := if "_info".toList.isSuffixOf f then f.take (f.length - 5) else f
  f

/-- Model of `pretty_funcname` on an actual string: clean, then if the
name contains `-`, split off the package component at the first `_`, drop
everything from the first `.` of the package, strip trailing digits and
hyphens, and reformat as `package:rest`. -/
def pretty_funcname (f : List Char) : List Char :=
  let f := clean_funcname f
  if f.contains '-' then
    let p := strPartition f '_'
    let q := strPartition p.1 '.'
    let pkg := rstrip q.1 "1234567890-".toList
    pkg ++ ":".toList ++ p.2.2
  else f

/-- The `while block and block.superblock` loop of `funcname`: visit the
proper ancestors of a block innermost-first and return the first one whose
function name is truthy. -/
def ancestorFuncname : Block → Option (List Char)
  | .mk _ none => none
  | .mk _ (some p) =>
    if truthy (block_funcname p) then block_funcname p
    else ancestorFuncname p

/-- The tail of `funcname` after the block tiers (tiers 3 to 5): the flat
`info symbol` lookup with optional `:closure` annotation, then, when
`pretty` holds and the flat lookup returned `None`, the line-table
heuristic with a `:??` annotation, and finally the `"??"` sentinel. -/
def funcname_tail (g : GdbEnv) (pc : Nat) (pretty closure : Bool) : List Char :=
  let clean : List Char → List Char :=
    fun f => if pretty then pretty_funcname f else clean_funcname f
  match pc_funcname g pc with
  | some f =>
    if !f.isEmpty then
      (if closure then clean f ++ ":closure".toList else clean f)
    else "??".toList
  | none =>
    if pretty then
      match guess_funcname g pc with
      | some f => if !f.isEmpty then clean f ++ ":??".toList else "??".toList
      | none => "??".toList
    else "??".toList

/-- Model of `Closure.funcname`: tier 1 is the exact block's own name;
tier 2 walks `superblock` ancestors and suffixes `:closure`; the remaining
tiers are `funcname_tail`.  The `closure` flag passed on is true exactly
when the ancestor loop ran at least once, i.e. when the exact block exists
and has a superblock. -/
def funcname (g : GdbEnv) (pc : Nat) (pretty : Bool) : List Char :=
  let clean : List Char → List Char :=
    fun f => if pretty then pretty_funcname f else clean_funcname f
  match g.block_for_pc pc with
  | some b =>
    if truthy (block_funcname b) then clean ((block_funcname b).getD [])
    else
      match ancestorFuncname b with
      | some f => clean f ++ ":closure".toList
      | none => funcname_tail g pc pretty b.superblock.isSome
  | none => funcname_tail g pc pretty false

/-- Model of `Closure.cached_funcname` with the class-level
`funcname_cache` dict made explicit: look the pc up in the cache; on a
miss compute `funcname` with `pretty=True` and insert it.  The updated
cache is returned because the Python dict is a class attribute that is
never cleared for the lifetime of the debugger process. -/
def cached_funcname (g : GdbEnv) (cache : List (Nat × List Char)) (pc : Nat) :
    List Char × List (Nat × List Char) :=
  match cache.lookup pc with
  | some f => (f, cache)
  | none =>
    let f := funcname g pc true
    (f, (pc, f) :: cache)

/-- One command invocation's name-resolution work, as a sequence of pc
lookups threaded through the cache; the final cache is returned because
the class attribute carries it into the next invocation. -/
def resolveAll (g : GdbEnv) (cache : List (Nat × List Char)) :
    List Nat → List (List Char) × List (Nat × List Char)
  | [] => ([], cache)
  | pc :: rest =>
    let r := cached_funcname g cache pc
    let rs := resolveAll g r.2 rest
    (r.1 :: rs.1, rs.2)

/-! ### Trace formatter (`InfoTsoProfile` line building) -/

/-- The stack-accumulation loop of `InfoTsoProfile.invoke`, over the
resolved frame names in walk (leaf-to-root) order with the last appended
name as `prev`: without `-v`, skip `"??"` and `stg_`-prefixed names;
with `-u`, skip a name equal to the previously appended one. -/
def buildStack (verbose uniq : Bool) : List (List Char) → Option (List Char) → List (List Char)
  | [], _ => []
  | f :: rest, prev =>
    if !verbose && (f = "??".toList || "stg_".toList.isPrefixOf f) then
      buildStack verbose uniq rest prev
    else if uniq && prev = some f then
      buildStack verbose uniq rest prev
    else f :: buildStack verbose uniq rest (some f)

/-- Model of Python `";".join(xs)`. -/
def joinSemi : List (List Char) → List Char
  | [] => []
  | [x] => x
  | x :: y :: rest => x ++ ';' :: joinSemi (y :: rest)

/-- Model of one thread's `info tsoprofile` output line: the accumulated
stack is reversed (printing root-to-leaf) and joined with `;` after the
fixed `PROFILE;` prefix. -/
def profile_line (verbose uniq : Bool) (names : List (List Char)) : List Char :=
  "PROFILE;".toList ++ joinSemi (buildStack verbose uniq names none).reverse

/-! ### Command loops (`InfoTsos.invoke`, `InfoTsoProfile.invoke`) -/

/-- One thread as the command loops see it: its id and status string, its
`running()` flag, the resolved names of the frames its stack walk yields
(leaf-to-root) before any failure, and the exception (if any) the walk
raises after those frames.  The walk internals are modelled separately
(`frame_size`, `funcname`); here their combined outcome per thread is the
input. -/
structure ThreadView where
  tid : Nat
  status : List Char
  run : Bool
  names : List (List Char)
  fail : Option WalkError
deriving DecidableEq

/-- One printed line of either command. -/
inductive OutLine where
  | header (tid : Nat) (status : List Char)
  | frame (txt : List Char)
  | blank
  | profile (txt : List Char)
  | errline (e : WalkError)
deriving DecidableEq

/-- Model of `InfoTsos.invoke` over the enumerated threads: print each
thread's header and frame lines, then a blank line.  The loop body has no
exception handler, so the first failing stack walk propagates out of
`invoke`: the loop stops after the lines already printed (the failing
thread's blank line included is not printed), and no further thread is
processed.  The pair returned is (lines printed, escaped exception). -/
def infoTsos (only_running : Bool) : List ThreadView → List OutLine × Option WalkError
  | [] => ([], none)
  | t :: rest =>
    if only_running && !t.run then infoTsos only_running rest
    else
      let head := OutLine.header t.tid t.status :: t.names.map OutLine.frame
      match t.fail with
      | some e => (head, some e)
      | none =>
        let r := infoTsos only_running rest
        (head ++ OutLine.blank :: r.1, r.2)

/-- Model of `InfoTsoProfile.invoke` over the running threads: each
thread's walk is wrapped in `try ... except gdb.MemoryError`, so a memory
fault prints an inline `error:` line and the loop continues, while a
`NotImplementedError` from `frame_size` is not caught and aborts the
whole invocation. -/
def infoTsoProfile (verbose uniq : Bool) : List ThreadView → List OutLine × Option WalkError
  | [] => ([], none)
  | t :: rest =>
    match t.fail with
    | some WalkError.memoryError =>
      let r := infoTsoProfile verbose uniq rest
      (OutLine.errline .memoryError :: r.1, r.2)
    | some WalkError.notImplemented => ([], some .notImplemented)
    | none =>
      let r := infoTsoProfile verbose uniq rest
      (OutLine.profile (profile_line verbose uniq t.names) :: r.1, r.2)

/-! ### Lemmas about the symbol decoder -/

theorem zdecodeF_nil (fuel : Nat) : zdecodeF fuel [] = [] := by
  cases fuel <;> rfl

theorem neg_one_le_strFind (s : List Char) (c : Char) : -1 ≤ strFind s c := by
  induction s with
  | nil => simp [strFind]
  | cons a t ih =>
    simp only [strFind]
    split_ifs <;> omega

theorem strFind_cons (a : Char) (t : List Char) (c : Char) :
    strFind (a :: t) c =
      if a = c then 0 else if strFind t c < 0 then -1 else strFind t c + 1 := by
  simp only [strFind]

theorem strFind_no_occ (s : List Char) (c : Char) (h : ∀ a ∈ s, a ≠ c) :
    strFind s c = -1 := by
  induction s with
  | nil => rfl
  | cons a t ih =>
    rw [strFind_cons, if_neg (h a (List.mem_cons_self a t)),
      ih (fun x hx => h x (List.mem_cons_of_mem a hx))]
    norm_num

theorem strFind_append_no_occ (pre s : List Char) (c : Char)
    (h : ∀ a ∈ pre, a ≠ c) :
    strFind (pre ++ s) c =
      if strFind s c < 0 then -1 else strFind s c + pre.length := by
  induction pre with
  | nil =>
    have := neg_one_le_strFind s c
    simp only [List.nil_append, List.length_nil]
    split_ifs <;> push_cast <;> omega
  | cons a t ih =>
    have ha : a ≠ c := h a (List.mem_cons_self a t)
    have ht : ∀ x ∈ t, x ≠ c := fun x hx => h x (List.mem_cons_of_mem a hx)
    have hge := neg_one_le_strFind s c
    rw [List.cons_append, strFind_cons, if_neg ha, ih ht]
    simp only [List.length_cons]
    split_ifs <;> push_cast <;> omega

theorem drop_len_add_append (pre s : List Char) (n : Nat) :
    (pre ++ s).drop (pre.length + n) = s.drop n := by
  induction pre with
  | nil => simp
  | cons a t ih =>
    simp only [List.cons_append, List.length_cons]
    have hre : t.length + 1 + n = (t.length + n) + 1 := by omega
    rw [hre, List.drop_succ_cons, ih]

theorem zdecodeF_congr : ∀ (f1 f2 : Nat) (s : List Char),
    s.length ≤ f1 → s.length ≤ f2 → zdecodeF f1 s = zdecodeF f2 s := by
  intro f1
  induction f1 with
  | zero =>
    intro f2 s h1 _
    have hs : s = [] := List.eq_nil_of_length_eq_zero (Nat.le_zero.mp h1)
    subst hs
    simp [zdecodeF_nil]
  | succ f ih =>
    intro f2 s h1 h2
    by_cases hs : s = []
    · subst hs; simp [zdecodeF_nil]
    · have hlen : 1 ≤ s.length := by
        cases s with
        | nil => exact absurd rfl hs
        | cons a t => simp
      obtain ⟨f2p, rfl⟩ : ∃ k, f2 = k + 1 := by
        cases f2 with
        | zero => omega
        | succ k => exact ⟨k, rfl⟩
      simp only [zdecodeF, if_neg hs]
      by_cases hz : strFind s 'z' < 0 ∧ strFind s 'Z' < 0
      · rw [if_pos hz, if_pos hz]
      · rw [if_neg hz, if_neg hz]
        congr 1
        apply ih
        · simp only [List.length_drop]; omega
        · simp only [List.length_drop]; omega

/-- Key stepping lemma: when the input is an escape-free prefix followed by
an escape lead, `zdecode` copies the prefix, translates the two-character
token at the lead, and recurses on the remainder. -/
theorem zdecode_step (pre : List Char) (lead : Char) (tail : List Char)
    (hpre : ∀ a ∈ pre, a ≠ 'z' ∧ a ≠ 'Z') (hlead : lead = 'z' ∨ lead = 'Z') :
    zdecode (pre ++ lead :: tail) =
      pre ++ ztransGet ((lead :: tail).take 2) ++ zdecode ((lead :: tail).drop 2) := by
  have hz : ∀ a ∈ pre, a ≠ 'z' := fun a ha => (hpre a ha).1
  have hZ : ∀ a ∈ pre, a ≠ 'Z' := fun a ha => (hpre a ha).2
  have e1 := strFind_append_no_occ pre (lead :: tail) 'z' hz
  have e2 := strFind_append_no_occ pre (lead :: tail) 'Z' hZ
  have hne : pre ++ lead :: tail ≠ [] := by simp
  have hlen : (pre ++ lead :: tail).length = (pre.length + tail.length) + 1 := by
    simp [List.length_append]; omega
  have d0 : (pre ++ lead :: tail).drop pre.length = lead :: tail := by
    have h0 := drop_len_add_append pre (lead :: tail) 0
    simp only [Nat.add_zero, List.drop_zero] at h0
    exact h0
  have d2 : (pre ++ lead :: tail).drop (pre.length + 2) = (lead :: tail).drop 2 :=
    drop_len_add_append pre (lead :: tail) 2
  have hrec : zdecodeF (pre.length + tail.length) ((lead :: tail).drop 2) =
      zdecodeF ((lead :: tail).drop 2).length ((lead :: tail).drop 2) := by
    apply zdecodeF_congr
    · simp only [List.length_drop, List.length_cons]; omega
    · omega
  rcases hlead with h | h <;> subst h
  · have f1 : strFind ('z' :: tail) 'z' = 0 := by
      rw [strFind_cons, if_pos rfl]
    have f2 : strFind ('z' :: tail) 'Z' =
        if strFind tail 'Z' < 0 then -1 else strFind tail 'Z' + 1 := by
      rw [strFind_cons, if_neg (by decide : ¬('z' : Char) = 'Z')]
    have hk := neg_one_le_strFind tail 'Z'
    rw [f1] at e1
    rw [f2] at e2
    norm_num at e1
    have E1 : strFind (pre ++ 'z' :: tail) 'z' = (pre.length : Int) := e1
    have hcond : ¬(strFind (pre ++ 'z' :: tail) 'z' < 0 ∧
        strFind (pre ++ 'z' :: tail) 'Z' < 0) := by
      rw [E1]; omega
    have hidx : (if strFind (pre ++ 'z' :: tail) 'z' < 0 then
          strFind (pre ++ 'z' :: tail) 'Z'
        else if strFind (pre ++ 'z' :: tail) 'Z' < 0 then
          strFind (pre ++ 'z' :: tail) 'z'
        else min (strFind (pre ++ 'z' :: tail) 'z')
          (strFind (pre ++ 'z' :: tail) 'Z')) = (pre.length : Int) := by
      rw [E1]
      simp only [min_def]
      split_ifs at e2 ⊢ <;> omega
    simp only [zdecode, hlen, zdecodeF, if_neg hne, if_neg hcond, hidx,
      Int.toNat_natCast, List.take_left, d0, d2]
    rw [hrec]
  · have f1 : strFind ('Z' :: tail) 'Z' = 0 := by
      rw [strFind_cons, if_pos rfl]
    have f2 : strFind ('Z' :: tail) 'z' =
        if strFind tail 'z' < 0 then -1 else strFind tail 'z' + 1 := by
      rw [strFind_cons, if_neg (by decide : ¬('Z' : Char) = 'z')]
    have hk := neg_one_le_strFind tail 'z'
    rw [f1] at e2
    rw [f2] at e1
    norm_num at e2
    have E2 : strFind (pre ++ 'Z' :: tail) 'Z' = (pre.length : Int) := e2
    have hcond : ¬(strFind (pre ++ 'Z' :: tail) 'z' < 0 ∧
        strFind (pre ++ 'Z' :: tail) 'Z' < 0) := by
      rw [E2]; omega
    have hidx : (if strFind (pre ++ 'Z' :: tail) 'z' < 0 then
          strFind (pre ++ 'Z' :: tail) 'Z'
        else if strFind (pre ++ 'Z' :: tail) 'Z' < 0 then
          strFind (pre ++ 'Z' :: tail) 'z'
        else min (strFind (pre ++ 'Z' :: tail) 'z')
          (strFind (pre ++ 'Z' :: tail) 'Z')) = (pre.length : Int) := by
      rw [E2]
      simp only [min_def]
      split_ifs at e1 ⊢ <;> omega
    simp only [zdecode, hlen, zdecodeF, if_neg hne, if_neg hcond, hidx,
      Int.toNat_natCast, List.take_left, d0, d2]
    rw [hrec]

/-- C5: the symbol decoder is total and deterministic — it is a function
defined for every input — and: on escape-free input it is the identity; a
lone escape-lead character at the very end of input is passed through
unchanged; and every two-character token led by an escape character that
is not in the `ztrans` table is passed through with both characters
preserved verbatim. -/
theorem zdecode_total_and_passthrough :
    (∀ s : List Char, (∀ a ∈ s, a ≠ 'z' ∧ a ≠ 'Z') → zdecode s = s) ∧
    (∀ (pre : List Char) (lead : Char),
      (∀ a ∈ pre, a ≠ 'z' ∧ a ≠ 'Z') → lead = 'z' ∨ lead = 'Z' →
      zdecode (pre ++ [lead]) = pre ++ [lead]) ∧
    (∀ (pre : List Char) (lead c : Char) (rest : List Char),
      (∀ a ∈ pre, a ≠ 'z' ∧ a ≠ 'Z') → lead = 'z' ∨ lead = 'Z' →
      ztrans.lookup [lead, c] = none →
      zdecode (pre ++ lead :: c :: rest) = pre ++ lead :: c :: zdecode rest) := by
  refine ⟨?_, ?_, ?_⟩
  · intro s h
    cases s with
    | nil => rfl
    | cons a t =>
      have e1 : strFind (a :: t) 'z' = -1 :=
        strFind_no_occ _ _ (fun x hx => (h x hx).1)
      have e2 : strFind (a :: t) 'Z' = -1 :=
        strFind_no_occ _ _ (fun x hx => (h x hx).2)
      simp only [zdecode, List.length_cons, zdecodeF]
      rw [if_neg (by simp), if_pos (by rw [e1, e2]; norm_num)]
  · intro pre lead hpre hlead
    have := zdecode_step pre lead [] hpre hlead
    have hzg : ztransGet [lead] = [lead] := by
      rcases hlead with h | h <;> subst h <;> decide
    simpa [hzg, zdecode] using this
  · intro pre lead c rest hpre hlead hlook
    have := zdecode_step pre lead (c :: rest) hpre hlead
    have hzg : ztransGet [lead, c] = [lead, c] := by
      simp [ztransGet, hlook]
    simpa [hzg] using this

/-- Witness for C5 at concrete inputs. -/
theorem zdecode_total_and_passthrough_witness :
    zdecode ['a', 'b'] = ['a', 'b'] ∧ zdecode ['a', 'z'] = ['a', 'z'] ∧
    zdecode ('a' :: 'z' :: 'x' :: "qq".toList) =
      'a' :: 'z' :: 'x' :: zdecode "qq".toList := by
  refine ⟨zdecode_total_and_passthrough.1 ['a', 'b'] (by decide),
          zdecode_total_and_passthrough.2.1 ['a'] 'z' (by decide) (Or.inl rfl), ?_⟩
  have := zdecode_total_and_passthrough.2.2 ['a'] 'z' 'x' "qq".toList
    (by decide) (Or.inl rfl) (by decide)
  simpa using this

/-! ### Frame size claims -/

/-- C4: for a standard/small-layout (`RET_SMALL`) frame descriptor with
layout bitmap `b`, the computed frame size is `1 + (b AND 0x3F)`; bitmap
`0x05` gives size 6, bitmap `0x3F` gives size 64, and bits above the low 6
are masked off: the size only depends on `b % 64` (a descriptor with
bitmap `0xC5` also gives 6). -/
theorem frame_size_small_formula :
    (∀ b sz : Nat, frame_size ⟨RET_SMALL, b⟩ sz = .ok (1 + (b &&& 0x3f))) ∧
    (∀ sz : Nat, frame_size ⟨RET_SMALL, 0x05⟩ sz = .ok 6) ∧
    (∀ sz : Nat, frame_size ⟨RET_SMALL, 0x3f⟩ sz = .ok 64) ∧
    (∀ b sz : Nat, frame_size ⟨RET_SMALL, b⟩ sz = frame_size ⟨RET_SMALL, b % 64⟩ sz) ∧
    (∀ sz : Nat, frame_size ⟨RET_SMALL, 0xC5⟩ sz = .ok 6) := by
  have base : ∀ b sz : Nat, frame_size ⟨RET_SMALL, b⟩ sz = .ok (1 + (b &&& 0x3f)) := by
    intro b sz
    simp [frame_size, RET_SMALL, RET_FUN, RET_BIG, RET_BCO]
  have mask : ∀ b : Nat, b &&& 0x3f = b % 64 := by
    intro b
    have h := Nat.and_pow_two_sub_one_eq_mod b 6
    norm_num at h
    exact h
  refine ⟨base, fun sz => base 5 sz, fun sz => base 0x3f sz, ?_, fun sz => base 0xC5 sz⟩
  intro b sz
  rw [base, base, mask, mask]
  congr 1
  omega

/-- C3 counterexample: the tag 999 is outside every recognized closure
type, yet `frame_size` does not raise — it silently gives the frame the
default small-layout size. -/
theorem frame_size_unknown_tag_defaults :
    frame_size ⟨999, 5⟩ 0 = .ok 6 ∧
    (999 : Nat) ∉ [RET_BCO, RET_SMALL, RET_BIG, RET_FUN, CATCH_FRAME,
      STOP_FRAME, ATOMICALLY_FRAME] :=
  ⟨rfl, by decide⟩

/-- C3 amended: only the large-layout (`RET_BIG`) and interpreted-bytecode
(`RET_BCO`) tags raise the unsupported-frame failure; the
function-application tag gets its fixed header word count plus the size
field read from the frame; every other tag — recognized or not — is
silently given the standard small-layout size. -/
theorem frame_size_taxonomy :
    (∀ (ri : RetInfoTable) (sz : Nat),
      frame_size ri sz = .error .notImplemented ↔
        (ri.type = RET_BIG ∨ ri.type = RET_BCO)) ∧
    (∀ (ri : RetInfoTable) (sz : Nat),
      ri.type ≠ RET_FUN → ri.type ≠ RET_BIG → ri.type ≠ RET_BCO →
      frame_size ri sz = .ok (1 + (ri.bitmap &&& 0x3f))) ∧
    (∀ (b sz : Nat),
      frame_size ⟨RET_FUN, b⟩ sz = .ok (sizeofStgRetFun / sizeofStgRetFunP + sz)) := by
  refine ⟨?_, ?_, ?_⟩
  · intro ri sz
    unfold frame_size
    split_ifs with h1 h2 h3 <;> simp_all [RET_FUN, RET_BIG, RET_BCO]
  · intro ri sz h1 h2 h3
    unfold frame_size
    rw [if_neg h1, if_neg h2, if_neg h3]
  · intro b sz
    rfl

/-- Witness for the amended C3 at concrete descriptors: a `CATCH_FRAME`
(tag 34, not one of the raising tags) gets the small-layout size, and a
`RET_BIG` descriptor raises. -/
theorem frame_size_taxonomy_witness :
    frame_size ⟨34, 2⟩ 0 = .ok 3 ∧
    frame_size ⟨31, 2⟩ 0 = .error .notImplemented := by
  constructor
  · have h := frame_size_taxonomy.2.1 ⟨34, 2⟩ 0 (by decide) (by decide) (by decide)
    simpa using h
  · exact (frame_size_taxonomy.1 ⟨31, 2⟩ 0).mpr (Or.inl rfl)

/-! ### Lemmas about the thread enumerator -/

theorem chain_deterministic (next : Nat → Nat) (sent : Nat) :
    ∀ (f1 f2 t : Nat) (l1 l2 : List Nat),
      chain next sent t f1 = some l1 → chain next sent t f2 = some l2 → l1 = l2 := by
  intro f1
  induction f1 with
  | zero => intro f2 t l1 l2 h1; exact Option.noConfusion h1
  | succ f ih =>
    intro f2 t l1 l2 h1 h2
    cases f2 with
    | zero => exact Option.noConfusion h2
    | succ g =>
      simp only [chain] at h1 h2
      by_cases ht : t = sent
      · rw [if_pos ht] at h1 h2
        cases h1; cases h2; rfl
      · rw [if_neg ht] at h1 h2
        cases hc1 : chain next sent (next t) f with
        | none => rw [hc1] at h1; simp at h1
        | some m1 =>
          cases hc2 : chain next sent (next t) g with
          | none => rw [hc2] at h2; simp at h2
          | some m2 =>
            rw [hc1] at h1
            rw [hc2] at h2
            simp only [Option.map_some', Option.some.injEq] at h1 h2
            rw [← h1, ← h2, ih g (next t) m1 m2 hc1 hc2]

theorem chain_mem (next : Nat → Nat) (sent : Nat) :
    ∀ (m u : Nat) (l : List Nat) (t : Nat),
      chain next sent u m = some l → t ∈ l →
      ∃ m2 l2, chain next sent t m2 = some (t :: l2) ∧ l2.length < l.length := by
  intro m
  induction m with
  | zero => intro u l t h hm; exact Option.noConfusion h
  | succ f ih =>
    intro u l t h hm
    simp only [chain] at h
    by_cases hu : u = sent
    · rw [if_pos hu] at h
      cases h; simp at hm
    · rw [if_neg hu] at h
      cases hc : chain next sent (next u) f with
      | none => rw [hc] at h; simp at h
      | some lt =>
        rw [hc] at h
        simp only [Option.map_some', Option.some.injEq] at h
        subst h
        rcases List.mem_cons.mp hm with rfl | hmem
        · refine ⟨f + 1, lt, ?_, by simp⟩
          simp only [chain]
          rw [if_neg hu, hc]
          rfl
        · obtain ⟨m2, l2, hch, hlen⟩ := ih (next u) lt t hc hmem
          exact ⟨m2, l2, hch, by simp only [List.length_cons]; omega⟩

theorem chain_nodup (next : Nat → Nat) (sent : Nat) :
    ∀ (fuel t : Nat) (l : List Nat), chain next sent t fuel = some l → l.Nodup := by
  intro fuel
  induction fuel with
  | zero => intro t l h; exact Option.noConfusion h
  | succ f ih =>
    intro t l h
    simp only [chain] at h
    by_cases ht : t = sent
    · rw [if_pos ht] at h
      cases h; exact List.nodup_nil
    · rw [if_neg ht] at h
      cases hc : chain next sent (next t) f with
      | none => rw [hc] at h; simp at h
      | some lt =>
        rw [hc] at h
        simp only [Option.map_some', Option.some.injEq] at h
        subst h
        refine List.nodup_cons.mpr ⟨?_, ih (next t) lt hc⟩
        intro hmem
        obtain ⟨m2, l2, hch, hlen⟩ := chain_mem next sent f (next t) lt t hc hmem
        have hfull : chain next sent t (f + 1) = some (t :: lt) := by
          simp only [chain]
          rw [if_neg ht, hc]
          rfl
        have hdet := chain_deterministic next sent (f + 1) m2 t (t :: lt) (t :: l2) hfull hch
        have hll : lt = l2 := by injection hdet
        rw [hll] at hlen
        omega

theorem queueList_of_mapM (next : Nat → Nat) (sent : Nat) :
    ∀ (hs : List Nat) (fuel : Nat) (cs : List (List Nat)),
      hs.mapM (fun h => chain next sent h fuel) = some cs →
      queueList next sent hs fuel = some cs.flatten := by
  intro hs
  induction hs with
  | nil =>
    intro fuel cs h
    simp only [List.mapM_nil, pure, Option.some.injEq] at h
    subst h
    rfl
  | cons a rest ih =>
    intro fuel cs h
    simp only [List.mapM_cons] at h
    cases hc : chain next sent a fuel with
    | none => rw [hc] at h; simp at h
    | some c =>
      rw [hc] at h
      cases hr : rest.mapM (fun h => chain next sent h fuel) with
      | none => rw [hr] at h; simp at h
      | some cs1 =>
        rw [hr] at h
        simp only [Option.bind_eq_bind, Option.some_bind, pure, Option.some.injEq] at h
        subst h
        have hqr := ih fuel cs1 hr
        simp only [queueList, hc, hqr]
        simp

theorem chain_self_loop (next : Nat → Nat) (sent t : Nat)
    (hloop : next t = t) (hne : t ≠ sent) :
    ∀ fuel, chain next sent t fuel = none := by
  intro fuel
  induction fuel with
  | zero => rfl
  | succ f ih =>
    simp only [chain]
    rw [if_neg hne, hloop, ih]
    rfl

theorem queueList_none_of_mem (next : Nat → Nat) (sent : Nat) :
    ∀ (hs : List Nat) (fuel t : Nat), t ∈ hs → chain next sent t fuel = none →
      queueList next sent hs fuel = none := by
  intro hs
  induction hs with
  | nil => intro fuel t h; simp at h
  | cons a rest ih =>
    intro fuel t hmem hnone
    rcases List.mem_cons.mp hmem with rfl | hmem
    · simp only [queueList, hnone]
    · simp only [queueList]
      cases hc : chain next sent a fuel with
      | none => rfl
      | some c => rw [ih fuel t hmem hnone]; rfl

/-- A scheduler state in which TSO 1 sits both on capability 0's run queue
and on generation 0's thread list (the same record linked through both its
`_link` and `global_link` fields, as happens for any running thread, which
is always also on its generation's list). -/
def exShared : Sched :=
  ⟨[1], [1], fun _ => 0, fun _ => 0, 0⟩

/-- C2 counterexample: the enumerator applies no deduplication across its
two traversal sources — in `exShared`, TSO 1 is yielded twice, so the
enumeration is not duplicate-free. -/
theorem all_tsos_yields_duplicates :
    all_tsos exShared 4 = some [1, 1] ∧ ¬([1, 1] : List Nat).Nodup :=
  ⟨rfl, by decide⟩

/-- C2 amended: a successful enumeration is exactly the concatenation of
the per-capability run-queue chains (capability index order, then link
order) followed by the per-generation thread chains (generation index
order, then link order); within one chain no record can repeat (a repeat
would make the sentinel unreachable), but nothing deduplicates across
chains or across the two sources, so a record linked on both a run queue
and a generation list is yielded once per source. -/
theorem all_tsos_order_and_chains :
    (∀ (s : Sched) (fuel : Nat) (cs gs : List (List Nat)),
      s.run_queue_hd.mapM (fun h => chain s.link s.sentinel h fuel) = some cs →
      s.gen_threads.mapM (fun h => chain s.global_link s.sentinel h fuel) = some gs →
      all_tsos s fuel = some (cs.flatten ++ gs.flatten)) ∧
    (∀ (next : Nat → Nat) (sent t fuel : Nat) (l : List Nat),
      chain next sent t fuel = some l → l.Nodup) := by
  constructor
  · intro s fuel cs gs hc hg
    have h1 := queueList_of_mapM s.link s.sentinel s.run_queue_hd fuel cs hc
    have h2 := queueList_of_mapM s.global_link s.sentinel s.gen_threads fuel gs hg
    simp only [all_tsos, h1, h2]
  · exact fun next sent t fuel l h => chain_nodup next sent fuel t l h

/-- Witness for the amended C2 at a concrete two-chain state. -/
theorem all_tsos_order_and_chains_witness :
    all_tsos ⟨[1], [2], fun _ => 0, fun _ => 0, 0⟩ 4 =
      some (List.flatten [[1]] ++ List.flatten [[2]]) ∧
    ([1] : List Nat).Nodup := by
  constructor
  · exact all_tsos_order_and_chains.1 ⟨[1], [2], fun _ => 0, fun _ => 0, 0⟩ 4
      [[1]] [[2]] rfl rfl
  · exact all_tsos_order_and_chains.2 (fun _ => 0) 0 1 4 [1] rfl

/-- A scheduler state whose single run queue is a self-loop: TSO 1's
`_link` points back to itself, so the sentinel (address 0) is never
reached. -/
def exCyc : Sched :=
  ⟨[1], [], fun _ => 1, fun _ => 1, 0⟩

/-- C8 counterexample: on a cyclic run queue the enumerator neither caps
its iteration count nor raises any distinct cycle-detected condition — the
traversal simply never completes (here: not within 1000 steps, and
`chain_self_loop` shows not within any number of steps), and the whole
enumeration, the generation-list source included, produces nothing. -/
theorem all_tsos_cycle_diverges :
    chain exCyc.link exCyc.sentinel 1 1000 = none ∧
    all_tsos exCyc 1000 = none := by
  have hch : ∀ fuel, chain exCyc.link exCyc.sentinel 1 fuel = none :=
    chain_self_loop _ _ 1 rfl (by decide)
  refine ⟨hch 1000, ?_⟩
  have hq := queueList_none_of_mem exCyc.link exCyc.sentinel [1] 1000 1
    (by decide) (hch 1000)
  simp only [all_tsos]
  rw [show exCyc.run_queue_hd = [1] from rfl, hq]

/-- C8 amended: the enumerator has no iteration bound and no cycle
detection: a queue whose link field loops never reaches the sentinel, so
its traversal never completes for any number of steps, and the whole
enumeration — the other data source included — yields nothing instead of
raising a distinct condition scoped to the corrupt source. -/
theorem all_tsos_no_cycle_detection :
    (∀ (next : Nat → Nat) (sent t : Nat), next t = t → t ≠ sent →
      ∀ fuel, chain next sent t fuel = none) ∧
    (∀ (s : Sched) (t fuel : Nat), t ∈ s.run_queue_hd → s.link t = t →
      t ≠ s.sentinel → all_tsos s fuel = none) := by
  constructor
  · exact fun next sent t hl hn => chain_self_loop next sent t hl hn
  · intro s t fuel hmem hloop hne
    have hch := chain_self_loop s.link s.sentinel t hloop hne fuel
    have hq := queueList_none_of_mem s.link s.sentinel s.run_queue_hd fuel t hmem hch
    simp only [all_tsos, hq]

/-- Witness for the amended C8 at a concrete cyclic state. -/
theorem all_tsos_no_cycle_detection_witness :
    chain (fun _ => 7) 0 7 64 = none ∧
    all_tsos ⟨[7], [], fun _ => 7, fun _ => 0, 0⟩ 64 = none :=
  ⟨all_tsos_no_cycle_detection.1 (fun _ => 7) 0 7 rfl (by decide) 64,
   all_tsos_no_cycle_detection.2 ⟨[7], [], fun _ => 7, fun _ => 0, 0⟩ 7 64
     (by decide) rfl (by decide)⟩

/-! ### Claims about `running_tsos` (C9) -/

theorem running_tsos_list_filterMap :
    ∀ ps : List (Option Nat), running_tsos_list ps = ps.filterMap id := by
  intro ps
  induction ps with
  | nil => rfl
  | cons p rest ih =>
    cases p with
    | none => simp [running_tsos_list, ih]
    | some q => simp [running_tsos_list, ih]

theorem infoTsoProfile_all_clean (v u : Bool) :
    ∀ ts : List ThreadView, (∀ t ∈ ts, t.fail = none) →
      infoTsoProfile v u ts =
        (ts.map (fun t => OutLine.profile (profile_line v u t.names)), none) := by
  intro ts
  induction ts with
  | nil => intro h; rfl
  | cons t rest ih =>
    intro h
    have ht : t.fail = none := h t (List.mem_cons_self t rest)
    have hr : ∀ x ∈ rest, x.fail = none := fun x hx => h x (List.mem_cons_of_mem t hx)
    simp only [infoTsoProfile, ht, ih hr, List.map_cons]

/-- A capability state whose single worker's `rCurrentTSO` points at a
thread whose `what_next` is `ThreadKilled`. -/
def exCaps : Caps :=
  ⟨[some 5], fun _ => ⟨3, 0⟩⟩

/-- C9 counterexample: `running_tsos` yields thread 5 because capability
0's `rCurrentTSO` points at it, yet its record is in killed status —
`running` is false for it — and the profile command still emits a
`PROFILE` line for it.  The enumeration never consults the status
field. -/
theorem running_tsos_yields_killed_thread :
    running_tsos exCaps = [5] ∧ running (exCaps.tso 5) = false ∧
    (infoTsoProfile false false [⟨5, "killed".toList, false, [], none⟩]).1 =
      [OutLine.profile "PROFILE;".toList] :=
  ⟨rfl, rfl, rfl⟩

/-- C9 amended: `running_tsos` yields exactly the non-NULL per-worker
current-thread pointers, in worker order — the enumeration equals
`rCurrentTSO.filterMap id`, so nothing is dropped, added, reordered or
status-filtered — and the profile command, run over those threads under
any assignment of per-thread views whatever (any status string, any
`running` flag, any resolved names) in which the walks succeed, emits
exactly one `PROFILE` line per yielded thread and never aborts: no status
check stands between the pointer read and the emitted line. -/
theorem running_tsos_is_current_pointers :
    (∀ w : Caps, running_tsos w = w.rCurrentTSO.filterMap id) ∧
    (∀ (v u : Bool) (w : Caps) (mk : Nat → ThreadView),
      (∀ t : Nat, (mk t).fail = none) →
      infoTsoProfile v u ((running_tsos w).map mk) =
        ((running_tsos w).map
          (fun t => OutLine.profile (profile_line v u (mk t).names)), none)) := by
  constructor
  · intro w
    exact running_tsos_list_filterMap w.rCurrentTSO
  · intro v u w mk h
    have hclean : ∀ x ∈ (running_tsos w).map mk, x.fail = none := by
      intro x hx
      obtain ⟨t, _, rfl⟩ := List.mem_map.mp hx
      exact h t
    rw [infoTsoProfile_all_clean v u ((running_tsos w).map mk) hclean]
    simp [List.map_map, Function.comp]

/-- Witness for the amended C9: at the concrete `exCaps` state, the
enumeration is the filter-map of the single worker's pointer list, and the
profile command — with every thread viewed as killed and not running —
still emits one line for thread 5. -/
theorem running_tsos_is_current_pointers_witness :
    running_tsos exCaps = List.filterMap id [some 5] ∧
    infoTsoProfile false false
        ((running_tsos exCaps).map
          (fun t => ⟨t, "killed".toList, false, [], none⟩)) =
      ([OutLine.profile "PROFILE;".toList], none) := by
  constructor
  · exact running_tsos_is_current_pointers.1 exCaps
  · have h := running_tsos_is_current_pointers.2 false false exCaps
      (fun t => ⟨t, "killed".toList, false, [], none⟩) (fun t => rfl)
    rw [h]
    decide

/-! ### Claims about the name cache (C10) -/

/-- An environment in which address 0 resolves to `aaa`. -/
def envA : GdbEnv :=
  ⟨fun _ => some (.mk (some "aaa".toList) none), fun _ => none, fun _ => ⟨none, 0⟩⟩

/-- An environment — the same target after its memory changed — in which
address 0 resolves to `bbb`. -/
def envB : GdbEnv :=
  ⟨fun _ => some (.mk (some "bbb".toList) none), fun _ => none, fun _ => ⟨none, 0⟩⟩

/-- C10 counterexample: the class-level cache survives into the next
invocation.  A first invocation under `envA` caches `aaa` for address 0; a
second invocation under `envB` — where fresh resolution now gives `bbb` —
still returns the stale `aaa`. -/
theorem stale_cache_after_target_change :
    (resolveAll envB ((resolveAll envA [] [0]).2) [0]).1 = ["aaa".toList] ∧
    funcname envB 0 true = "bbb".toList ∧
    "aaa".toList ≠ "bbb".toList :=
  ⟨rfl, rfl, by decide⟩

/-- C10 amended: the name cache is a class attribute with process
lifetime, never invalidated between invocations: whatever environment the
second invocation runs against, a pc resolved in a previous invocation is
answered from the cache with the previously computed name. -/
theorem funcname_cache_persists :
    ∀ (g1 g2 : GdbEnv) (pc : Nat),
      (resolveAll g2 ((resolveAll g1 [] [pc]).2) [pc]).1 = [funcname g1 pc true] := by
  intro g1 g2 pc
  simp [resolveAll, cached_funcname, List.lookup]

/-! ### Claims about the resolver tiers (C6) -/

/-- C6: the resolver's tiers are tried in order with first success
winning: (1) when the exact block has a (nonempty) name, that name is
cleaned and returned, even when a flat symbol-table match also exists;
(2) when the exact block is anonymous but an ancestor block is named, the
ancestor's cleaned name suffixed `:closure` is returned; (3) when the
block lookup, the flat symbol lookup and the line-table lookup all fail,
the fixed `"??"` sentinel is returned — the resolver is a total function
and never raises. -/
theorem funcname_tiers :
    (∀ (g : GdbEnv) (pc : Nat) (pretty : Bool) (b : Block) (f sflat : List Char),
      g.block_for_pc pc = some b → block_funcname b = some f → f ≠ [] →
      g.info_symbol pc = some sflat →
      funcname g pc pretty = (if pretty then pretty_funcname f else clean_funcname f)) ∧
    (∀ (g : GdbEnv) (pc : Nat) (pretty : Bool) (b : Block) (f : List Char),
      g.block_for_pc pc = some b → block_funcname b = none →
      ancestorFuncname b = some f →
      funcname g pc pretty =
        (if pretty then pretty_funcname f else clean_funcname f) ++ ":closure".toList) ∧
    (∀ (g : GdbEnv) (pc : Nat) (pretty : Bool),
      g.block_for_pc pc = none → g.info_symbol pc = none →
      (g.find_pc_line pc).symtab = none →
      funcname g pc pretty = "??".toList) := by
  refine ⟨?_, ?_, ?_⟩
  · intro g pc pretty b f sflat hb hf hne hflat
    have hemp : f.isEmpty = false := by
      cases f with
      | nil => exact absurd rfl hne
      | cons a t => rfl
    simp [funcname, hb, hf, truthy, hemp]
  · intro g pc pretty b f hb hanon hanc
    have ht : truthy (block_funcname b) = false := by
      rw [hanon]; rfl
    simp only [funcname, hb, ht, Bool.false_eq_true, if_false, hanc]
  · intro g pc pretty hb hsym hline
    simp only [funcname, hb, funcname_tail, pc_funcname, hsym, guess_funcname, hline]
    cases pretty <;> rfl

/-- Tier-1 test environment: address 0 has a named exact block and a flat
symbol match. -/
def envT1 : GdbEnv :=
  ⟨fun _ => some (.mk (some "aaa".toList) none),
   fun _ => some "g_info x".toList, fun _ => ⟨none, 0⟩⟩

/-- Tier-2 test environment: address 0 has an anonymous exact block with a
named parent block. -/
def envT2 : GdbEnv :=
  ⟨fun _ => some (.mk none (some (.mk (some "anc".toList) none))),
   fun _ => none, fun _ => ⟨none, 0⟩⟩

/-- All-tiers-fail test environment. -/
def envT3 : GdbEnv :=
  ⟨fun _ => none, fun _ => none, fun _ => ⟨none, 0⟩⟩

/-- Witness for C6 at concrete environments. -/
theorem funcname_tiers_witness :
    funcname envT1 0 false = clean_funcname "aaa".toList ∧
    funcname envT2 0 false = clean_funcname "anc".toList ++ ":closure".toList ∧
    funcname envT3 0 true = "??".toList := by
  refine ⟨?_, ?_, funcname_tiers.2.2 envT3 0 true rfl rfl rfl⟩
  · have h := funcname_tiers.1 envT1 0 false (.mk (some "aaa".toList) none)
      "aaa".toList "g_info x".toList rfl rfl (by decide) rfl
    simpa using h
  · have h := funcname_tiers.2.1 envT2 0 false
      (.mk none (some (.mk (some "anc".toList) none))) "anc".toList rfl rfl rfl
    simpa using h

/-! ### Claims about the profile line (C7) -/

/-- C7 counterexample: for frames resolving leaf-to-root to
`[a, a, b, a]`, with duplicate-collapse disabled the printed line is
`PROFILE;a;b;a;a` — the full leaf-to-root sequence reversed — and not
`PROFILE;a;a;b;a` as claimed. -/
theorem profile_line_reverse_counterexample :
    profile_line false false [['a'], ['a'], ['b'], ['a']] = "PROFILE;a;b;a;a".toList ∧
    "PROFILE;a;b;a;a".toList ≠ "PROFILE;a;a;b;a".toList :=
  ⟨rfl, by decide⟩

/-- C7 amended: for a running thread whose frames resolve leaf-to-root to
`[A, A, B, A]` (names that are not filtered and with `A ≠ B`), the profile
command prints root-to-leaf after the fixed prefix: with duplicate
collapse enabled the line is `PROFILE;A;B;A` (only the adjacent repeat
collapses), and with collapse disabled it is `PROFILE;A;B;A;A` — the
reversal of the leaf-to-root sequence, not `PROFILE;A;A;B;A`. -/
theorem profile_line_formats :
    ∀ (A B : List Char),
      A ≠ "??".toList → "stg_".toList.isPrefixOf A = false →
      B ≠ "??".toList → "stg_".toList.isPrefixOf B = false →
      A ≠ B →
      profile_line false true [A, A, B, A] =
        "PROFILE;".toList ++ (A ++ ';' :: (B ++ ';' :: A)) ∧
      profile_line false false [A, A, B, A] =
        "PROFILE;".toList ++ (A ++ ';' :: (B ++ ';' :: (A ++ ';' :: A))) := by
  intro A B hA hpA hB hpB hAB
  have hBA : B ≠ A := Ne.symm hAB
  have hpA2 : ¬("stg_".toList <+: A) := by
    intro h
    rw [← List.isPrefixOf_iff_prefix] at h
    rw [hpA] at h
    exact Bool.noConfusion h
  have hpB2 : ¬("stg_".toList <+: B) := by
    intro h
    rw [← List.isPrefixOf_iff_prefix] at h
    rw [hpB] at h
    exact Bool.noConfusion h
  have hA3 : A ≠ ['?', '?'] := hA
  have hB3 : B ≠ ['?', '?'] := hB
  have hpA3 : ¬(['s', 't', 'g', '_'] <+: A) := hpA2
  have hpB3 : ¬(['s', 't', 'g', '_'] <+: B) := hpB2
  constructor
  · simp [profile_line, buildStack, joinSemi, hA3, hpA3, hB3, hpB3, hAB, hBA]
  · simp [profile_line, buildStack, joinSemi, hA3, hpA3, hB3, hpB3, hAB, hBA]

/-- Witness for the amended C7 at concrete names. -/
theorem profile_line_formats_witness :
    profile_line false true [['a'], ['a'], ['b'], ['a']] =
      "PROFILE;".toList ++ (['a'] ++ ';' :: (['b'] ++ ';' :: ['a'])) ∧
    profile_line false false [['a'], ['a'], ['b'], ['a']] =
      "PROFILE;".toList ++ (['a'] ++ ';' :: (['b'] ++ ';' :: (['a'] ++ ';' :: ['a']))) :=
  profile_line_formats ['a'] ['b'] (by decide) (by decide) (by decide) (by decide)
    (by decide)

/-! ### Claims about per-thread failure scoping (C1) -/

theorem infoTsos_append_clean (r : Bool) :
    ∀ (ts1 ts2 : List ThreadView), (∀ t ∈ ts1, t.fail = none) →
      infoTsos r (ts1 ++ ts2) =
        ((infoTsos r ts1).1 ++ (infoTsos r ts2).1, (infoTsos r ts2).2) := by
  intro ts1
  induction ts1 with
  | nil => intro ts2 h; simp [infoTsos]
  | cons t rest ih =>
    intro ts2 h
    have ht : t.fail = none := h t (List.mem_cons_self t rest)
    have hr : ∀ x ∈ rest, x.fail = none := fun x hx => h x (List.mem_cons_of_mem t hx)
    by_cases hrun : (r && !t.run) = true
    · simp only [List.cons_append, infoTsos, hrun, if_true, List.append_eq]
      exact ih ts2 hr
    · rw [Bool.not_eq_true] at hrun
      simp only [List.cons_append, infoTsos, hrun, Bool.false_eq_true, if_false, ht,
        List.append_eq, ih ts2 hr]
      simp [List.append_assoc]

theorem infoTsoProfile_append_clean (v u : Bool) :
    ∀ (ts1 ts2 : List ThreadView),
      (∀ t ∈ ts1, t.fail ≠ some WalkError.notImplemented) →
      infoTsoProfile v u (ts1 ++ ts2) =
        ((infoTsoProfile v u ts1).1 ++ (infoTsoProfile v u ts2).1,
         (infoTsoProfile v u ts2).2) := by
  intro ts1
  induction ts1 with
  | nil => intro ts2 h; simp [infoTsoProfile]
  | cons t rest ih =>
    intro ts2 h
    have ht : t.fail ≠ some WalkError.notImplemented :=
      h t (List.mem_cons_self t rest)
    have hr : ∀ x ∈ rest, x.fail ≠ some WalkError.notImplemented :=
      fun x hx => h x (List.mem_cons_of_mem t hx)
    cases hf : t.fail with
    | none =>
      simp only [List.cons_append, infoTsoProfile, hf, List.append_eq, ih ts2 hr]
    | some e =>
      cases e with
      | memoryError =>
        simp only [List.cons_append, infoTsoProfile, hf, List.append_eq, ih ts2 hr]
      | notImplemented => exact absurd hf ht

/-- C1 amended: the two commands do not both isolate per-thread failures.
The profile command isolates only target memory-read faults — an inline
`error:` line replaces that thread's output and later threads still print
— while an unsupported-frame-kind failure aborts the rest of the profile
invocation, and in the list command any failure (either kind `e`) aborts
the invocation after the failing thread's partial lines, with no inline
error marker and no output for later threads. -/
theorem command_failure_scoping :
    (∀ (ts1 : List ThreadView) (t : ThreadView) (ts2 : List ThreadView)
        (e : WalkError),
      (∀ x ∈ ts1, x.fail = none) → t.fail = some e →
      infoTsos false (ts1 ++ t :: ts2) =
        ((infoTsos false ts1).1 ++
          OutLine.header t.tid t.status :: t.names.map OutLine.frame, some e)) ∧
    (∀ (v u : Bool) (ts1 : List ThreadView) (t : ThreadView)
        (ts2 : List ThreadView),
      (∀ x ∈ ts1, x.fail ≠ some WalkError.notImplemented) →
      t.fail = some WalkError.memoryError →
      infoTsoProfile v u (ts1 ++ t :: ts2) =
        ((infoTsoProfile v u ts1).1 ++
          OutLine.errline WalkError.memoryError :: (infoTsoProfile v u ts2).1,
         (infoTsoProfile v u ts2).2)) ∧
    (∀ (v u : Bool) (ts1 : List ThreadView) (t : ThreadView)
        (ts2 : List ThreadView),
      (∀ x ∈ ts1, x.fail ≠ some WalkError.notImplemented) →
      t.fail = some WalkError.notImplemented →
      infoTsoProfile v u (ts1 ++ t :: ts2) =
        ((infoTsoProfile v u ts1).1, some WalkError.notImplemented)) := by
  refine ⟨?_, ?_, ?_⟩
  · intro ts1 t ts2 e h1 ht
    rw [infoTsos_append_clean false ts1 (t :: ts2) h1]
    simp only [infoTsos, Bool.false_and, Bool.false_eq_true, if_false, ht]
  · intro v u ts1 t ts2 h1 ht
    rw [infoTsoProfile_append_clean v u ts1 (t :: ts2) h1]
    simp only [infoTsoProfile, ht]
  · intro v u ts1 t ts2 h1 ht
    rw [infoTsoProfile_append_clean v u ts1 (t :: ts2) h1]
    simp only [infoTsoProfile, ht, List.append_nil]

/-- A thread whose walk succeeds with no frames. -/
def tOK : ThreadView := ⟨1, "ok".toList, true, [], none⟩

/-- A thread whose walk raises `gdb.MemoryError`. -/
def tMem : ThreadView := ⟨2, "ok".toList, true, [], some WalkError.memoryError⟩

/-- A thread whose walk raises `NotImplementedError` (unsupported frame
kind). -/
def tBarf : ThreadView := ⟨2, "ok".toList, true, [], some WalkError.notImplemented⟩

/-- A third thread whose walk succeeds. -/
def tOK3 : ThreadView := ⟨3, "ok".toList, true, [], none⟩

/-- Witness for the amended C1 at concrete thread lists. -/
theorem command_failure_scoping_witness :
    infoTsos false [tOK, tMem, tOK3] =
      ([OutLine.header 1 "ok".toList, OutLine.blank, OutLine.header 2 "ok".toList],
       some WalkError.memoryError) ∧
    infoTsoProfile false false [tOK, tMem, tOK3] =
      ([OutLine.profile "PROFILE;".toList, OutLine.errline WalkError.memoryError,
        OutLine.profile "PROFILE;".toList], none) ∧
    infoTsoProfile false false [tOK, tBarf, tOK3] =
      ([OutLine.profile "PROFILE;".toList], some WalkError.notImplemented) := by
  refine ⟨?_, ?_, ?_⟩
  · have h := command_failure_scoping.1 [tOK] tMem [tOK3] WalkError.memoryError
      (by decide) rfl
    simpa using h
  · have h := command_failure_scoping.2.1 false false [tOK] tMem [tOK3]
      (by decide) rfl
    simpa using h
  · have h := command_failure_scoping.2.2 false false [tOK] tBarf [tOK3]
      (by decide) rfl
    simpa using h

/-- C1 counterexample: in the list command, with three threads of which
the second raises the unsupported-frame-kind failure, the invocation
aborts: thread 3 is never printed and no inline error marker appears —
contradicting the claim that every other thread still prints and the
invocation never aborts. -/
theorem list_command_abort_counterexample :
    (infoTsos false [tOK, tBarf, tOK3]).2 = some WalkError.notImplemented ∧
    OutLine.header 3 "ok".toList ∉ (infoTsos false [tOK, tBarf, tOK3]).1 ∧
    OutLine.errline WalkError.notImplemented ∉ (infoTsos false [tOK, tBarf, tOK3]).1 :=
  ⟨rfl, by decide, by decide⟩

end GhcRts
